import Mathlib

/-!
Verification of the Brieflow configuration notebooks (aggregate and merge
parameter configuration) against their natural-language specification.

The repository consists of two notebooks that orchestrate an external
library (`lib.aggregate`, `lib.merge`, ...).  Code that lives in the
notebooks themselves (config-file updates, merge-combo generation, the
call sites of the library functions) is embedded directly from the
source.  Library functions whose implementation is not part of the
repository are modelled from the specification; every such definition is
marked `Modelled from the spec:` in its doc comment.
-/

namespace Brieflow


/-- Error taxonomy of the pipeline, from the specification's error handling
design: `schemaError` for absent columns, `configError` for structurally
invalid configuration values (for example a batch with no controls), and
`alignmentPreconditionError` for violated numeric preconditions (residual
nulls before PCA, singular control covariance). -/

inductive PipelineError : Type
  | schemaError
  | configError
  | alignmentPreconditionError
  deriving DecidableEq, Repr

instance instDecEqExcept {e a : Type} [DecidableEq e] [DecidableEq a] :
    DecidableEq (Except e a) := fun x y =>
  match x, y with
  | .ok v, .ok w =>
      if h : v = w then isTrue (by rw [h]) else isFalse (fun hc => h (by injection hc))
  | .error v, .error w =>
      if h : v = w then isTrue (by rw [h]) else isFalse (fun hc => h (by injection hc))
  | .ok _, .error _ => isFalse (fun hc => Except.noConfusion hc)
  | .error _, .ok _ => isFalse (fun hc => Except.noConfusion hc)

/-! ## Configuration mapping (embedded from the notebooks' config handling)

Both notebooks load the YAML config into a Python dict, assign one
top-level key (`config["aggregate"]` resp. `config["merge"]`) and dump the
whole mapping back.  A YAML mapping is modelled as an association list of
top-level sections; Python dict assignment overwrites an existing key in
place and appends a missing key at the end. -/

/-- Python dict assignment `cfg[k] = v`: if the key is present its entry is
replaced in place, otherwise the pair is appended. -/

def dictSet {V : Type} (cfg : List (String × V)) (k : String) (v : V) :
    List (String × V) :=
  if cfg.any (fun p => p.1 = k) then
    cfg.map (fun p => if p.1 = k then (k, v) else p)
  else cfg ++ [(k, v)]

/-- Reading a top-level section of the configuration mapping. -/

def lookupKey {V : Type} (cfg : List (String × V)) (k : String) : Option V :=
  (cfg.find? (fun p => p.1 = k)).map Prod.snd

/-- Embedded from src/unnamed/part_000 (last cell): the aggregate notebook
assigns the collected parameters to the top-level `aggregate` key of the
loaded configuration and rewrites the file with the whole updated mapping. -/

def write_aggregate_section {V : Type} (config : List (String × V))
    (aggregate_params : V) : List (String × V) :=
  dictSet config ("aggregate") aggregate_params

/-- Embedded from src/analysis/5.configure_merge_params.ipynb (last cell):
the merge notebook assigns the collected parameters to the top-level `merge`
key of the loaded configuration and rewrites the file. -/

def write_merge_section {V : Type} (config : List (String × V))
    (merge_params : V) : List (String × V) :=
  dictSet config ("merge") merge_params

/-! ## Merge plate-well combo generation (embedded from the merge notebook) -/

/-- Embedded from src/analysis/5.configure_merge_params.ipynb: the SBS and
phenotype plate-well pairs are collected into Python sets; if the two sets
are equal the merge combos table holds those pairs, otherwise a warning is
emitted and an empty table with columns plate and well is written.  The
Bool records whether the warning fired; the list stands for the rows of
the written table (Python set order is arbitrary, so the rows are only
meaningful up to their underlying set). -/

def merge_wildcard_combos {P W : Type} [DecidableEq P] [DecidableEq W]
    (sbs_combos phenotype_combos : List (P × W)) : Bool × List (P × W) :=
  if sbs_combos.toFinset = phenotype_combos.toFinset then
    (false, sbs_combos.dedup)
  else
    (true, [])

/-! ## Filter chain (filters modelled from the spec, call sites embedded) -/

/-- Modelled from the spec: `query_filter` (lib.aggregate.filter, not part of
this repository) applies zero or more boolean expressions to each row; a row
survives only if it satisfies all of them, and an empty query list is the
identity.  A query is modelled as a Boolean predicate on the row. -/

def query_filter {R : Type} (queries : List (R → Bool)) (rows : List R) : List R :=
  rows.filter (fun r => queries.all (fun q => q r))

/-- Modelled from the spec: `perturbation_filter` (lib.aggregate.filter, not
part of this repository) drops rows whose designated perturbation-identity
column is null.  A row is modelled as its perturbation value paired with the
rest of the row. -/

def perturbation_filter {K F : Type} (rows : List (Option K × F)) :
    List (Option K × F) :=
  rows.filter (fun r => r.1.isSome)

/-- pandas `Series.nunique`: the number of distinct non-null values. -/

def nunique {K : Type} [DecidableEq K] (col : List (Option K)) : ℕ :=
  (col.filterMap id).dedup.length

/-- Embedded from src/unnamed/part_000 lines 441-446: the notebook runs
`query_filter` then `perturbation_filter` on the cell table, but the
`Unique populations` line it prints is `metadata[PERTURBATION_NAME_COL].nunique()`
computed on the ORIGINAL pre-filter metadata, not on the filtered output
`pf_metadata`.  The first component is the printed count, the second the
surviving rows. -/

def notebook_unique_populations_report {K F : Type} [DecidableEq K]
    (queries : List ((Option K × F) → Bool)) (rows : List (Option K × F)) :
    ℕ × List (Option K × F) :=
  (nunique (rows.map Prod.fst), perturbation_filter (query_filter queries rows))

/-! ## Metadata/feature splitter (modelled from the spec) -/

/-- Modelled from the spec: `split_cell_data` (lib.aggregate.cell_data_utils,
not part of this repository) splits a cell table into the listed metadata
columns (in the listed order) and all remaining columns (in input order),
failing with SchemaError when a listed column is absent.  A table is
modelled as an ordered list of named columns, each column carrying its
per-row values. -/

def split_cell_data {α : Type} (table : List (String × List α))
    (metadata_cols : List String) :
    Except PipelineError (List (String × List α) × List (String × List α)) :=
  if metadata_cols.all (fun c => table.any (fun col => col.1 = c)) then
    Except.ok
      (metadata_cols.filterMap (fun c => table.find? (fun col => col.1 = c)),
       table.filter (fun col => !(decide (col.1 ∈ metadata_cols))))
  else Except.error PipelineError.schemaError

/-! ## Missing-value filter (modelled from the spec, call site embedded) -/

/-- Insertion step of a simple sort on rationals, used for medians. -/

def insertSortedQ (x : ℚ) : List ℚ → List ℚ
  | [] => [x]
  | y :: ys => if x ≤ y then x :: y :: ys else y :: insertSortedQ x ys

/-- Sorting a list of rationals by insertion. -/

def sortQ (l : List ℚ) : List ℚ := l.foldr insertSortedQ []

/-- Median of a list of rationals (pandas convention: middle element of the
sorted values for odd length, average of the two middle elements for even
length; 0 for an empty list). -/

def medianQ (l : List ℚ) : ℚ :=
  let s := sortQ l
  if l.length = 0 then 0
  else if l.length % 2 = 1 then s.getD (l.length / 2) 0
  else (s.getD (l.length / 2 - 1) 0 + s.getD (l.length / 2) 0) / 2

/-- Row selection by a list of row indices (in index-list order). -/

def selectIdx {α : Type} (l : List α) (idxs : List ℕ) : List α :=
  idxs.filterMap (fun i => l[i]?)

/-- Null fraction of one feature column (0 for an empty column). -/

def colNullFrac (c : List (Option ℚ)) : ℚ :=
  if c.length = 0 then 0
  else (c.countP (fun x => x.isNone) : ℚ) / (c.length : ℚ)

/-- Null fraction of row `i` across the given feature columns (0 when there
are no columns). -/

def rowNullFrac (cols : List (List (Option ℚ))) (i : ℕ) : ℚ :=
  if cols.length = 0 then 0
  else (cols.countP (fun c => (c.getD i (some 0)).isNone) : ℚ) / (cols.length : ℚ)

/-- Imputation of one column: every null is replaced by the median of the
column's non-null values. -/

def imputeCol (c : List (Option ℚ)) : List (Option ℚ) :=
  c.map (fun x => some (x.getD (medianQ (c.filterMap id))))

/-- Columns surviving the column-drop stage of the missing-value filter. -/

def mvfKeptCols (drop_cols_threshold : ℚ) (feature_cols : List (List (Option ℚ))) :
    List (List (Option ℚ)) :=
  feature_cols.filter (fun c => colNullFrac c ≤ drop_cols_threshold)

/-- Row indices surviving the row-drop stage of the missing-value filter. -/

def mvfKeptRows (drop_cols_threshold drop_rows_threshold : ℚ) (nRows : ℕ)
    (feature_cols : List (List (Option ℚ))) : List ℕ :=
  (List.range nRows).filter
    (fun i => rowNullFrac (mvfKeptCols drop_cols_threshold feature_cols) i ≤
      drop_rows_threshold)

/-- Feature columns after both drop stages of the missing-value filter. -/

def mvfDroppedCols {M : Type} (drop_cols_threshold drop_rows_threshold : ℚ)
    (metadata : List M) (feature_cols : List (List (Option ℚ))) :
    List (List (Option ℚ)) :=
  (mvfKeptCols drop_cols_threshold feature_cols).map
    (fun c => selectIdx c
      (mvfKeptRows drop_cols_threshold drop_rows_threshold metadata.length feature_cols))

/-- Metadata rows after the row-drop stage of the missing-value filter. -/

def mvfDroppedMeta {M : Type} (drop_cols_threshold drop_rows_threshold : ℚ)
    (metadata : List M) (feature_cols : List (List (Option ℚ))) : List M :=
  selectIdx metadata
    (mvfKeptRows drop_cols_threshold drop_rows_threshold metadata.length feature_cols)

/-- Modelled from the spec: `missing_values_filter` (lib.aggregate.filter,
not part of this repository).  A column is dropped when its null fraction
exceeds `drop_cols_threshold`; afterwards a row is dropped when its null
fraction across the remaining columns exceeds `drop_rows_threshold`; with
`impute` enabled the remaining nulls are filled with the per-column median
over surviving rows, otherwise unresolved nulls raise
AlignmentPreconditionError.  Features are modelled column-wise, row-aligned
with the metadata list. -/

def missing_values_filter {M : Type} (drop_cols_threshold drop_rows_threshold : ℚ)
    (impute : Bool) (metadata : List M) (feature_cols : List (List (Option ℚ))) :
    Except PipelineError (List M × List (List (Option ℚ))) :=
  let metadata2 := mvfDroppedMeta drop_cols_threshold drop_rows_threshold
    metadata feature_cols
  let cols2 := mvfDroppedCols drop_cols_threshold drop_rows_threshold
    metadata feature_cols
  if impute then Except.ok (metadata2, cols2.map imputeCol)
  else if cols2.any (fun c => c.any (fun x => x.isNone)) then
    Except.error PipelineError.alignmentPreconditionError
  else Except.ok (metadata2, cols2)

/-- Embedded from src/unnamed/part_000 lines 485-492: the notebook calls
`missing_values_filter` with the literal `impute=True`; the user-configured
`IMPUTE` parameter is only persisted to the config file, it is not
forwarded to this call. -/

def notebook_missing_values_stage {M : Type} (IMPUTE : Bool)
    (drop_cols_threshold drop_rows_threshold : ℚ) (metadata : List M)
    (feature_cols : List (List (Option ℚ))) :
    Except PipelineError (List M × List (List (Option ℚ))) :=
  missing_values_filter drop_cols_threshold drop_rows_threshold true
    metadata feature_cols

/-! ## Intensity outlier filter (modelled from the spec) -/

/-- Modelled from the spec: `intensity_filter` (lib.aggregate.filter, not
part of this repository) fits a multivariate outlier detector over the
channel-intensity features and drops the rows the detector flags.  The
detector itself is external, so it is modelled by the flag vector it
returns; `admissibleFlags` below captures the one property the spec fixes
about it. -/

def intensity_filter {R : Type} (rows : List R) (flags : List Bool) : List R :=
  ((rows.zip flags).filter (fun p => !p.2)).map Prod.fst

/-- Modelled from the spec: the detector flags a proportion of the rows
equal to the configured `contamination`; concretely, `⌊contamination · n⌋`
of the `n` rows are flagged as outliers. -/

def admissibleFlags (contamination : ℚ) (n : ℕ) (flags : List Bool) : Prop :=
  flags.length = n ∧ flags.count true = (⌊contamination * (n : ℚ)⌋).toNat

/-! ## Alignment preparation and the TVN precondition (modelled from the
spec, call sites embedded from src/unnamed/part_000 lines 564-566 and
613-615) -/

/-- Modelled from the spec (component 4.3): `prepare_alignment_data`
(lib.aggregate.align, not part of this repository) derives the composite
batch key and flags control rows, and fails with ConfigError if a batch has
zero control rows.  A row is modelled as its batch key paired with its
perturbation value; the output adds the control flag. -/

def prepare_alignment_data {B K : Type} [DecidableEq B] [DecidableEq K]
    (control_key : K) (rows : List (B × Option K)) :
    Except PipelineError (List (B × Option K × Bool)) :=
  if ((rows.map Prod.fst).dedup).all
      (fun b => rows.any (fun r => r.1 = b ∧ r.2 = some control_key)) then
    Except.ok (rows.map (fun r => (r.1, r.2, decide (r.2 = some control_key))))
  else Except.error PipelineError.configError

/-- Modelled from the spec (component 4.5): the precondition fragment of
`tvn_on_controls` (lib.aggregate.align, not part of this repository) — a
batch with an empty control set has no invertible control covariance, so
the normalizer fails with AlignmentPreconditionError for that batch.  The
numeric transform itself is modelled separately over the reals. -/

def tvn_control_check {B K : Type} [DecidableEq B] [DecidableEq K]
    (control_key : K) (rows : List (B × Option K × Bool)) :
    Except PipelineError Unit :=
  if ((rows.map Prod.fst).dedup).all
      (fun b => rows.any (fun r => r.1 = b ∧ r.2.1 = some control_key)) then
    Except.ok ()
  else Except.error PipelineError.alignmentPreconditionError

/-- Embedded from src/unnamed/part_000: the notebook runs
`prepare_alignment_data` (lines 564-566) and then feeds its output to
`tvn_on_controls` (lines 613-615); this is the alignment/normalization
stage of the claim. -/

def alignment_stage {B K : Type} [DecidableEq B] [DecidableEq K]
    (control_key : K) (rows : List (B × Option K)) :
    Except PipelineError (List (B × Option K × Bool)) :=
  (prepare_alignment_data control_key rows).bind
    (fun prepared => (tvn_control_check control_key prepared).map (fun _ => prepared))

/-! ## Aggregator (modelled from the spec, call site embedded from
src/unnamed/part_000 lines 617-619) -/

/-- Aggregation methods accepted by the aggregator. -/

inductive AggMethod : Type
  | mean
  | median
  deriving DecidableEq, Repr

/-- Per-feature aggregation of a group of embedding vectors: arithmetic mean
or per-dimension median, computed independently per feature dimension. -/

def aggregateVec {d : ℕ} (method : AggMethod) (grp : List (Fin d → ℚ)) :
    Fin d → ℚ :=
  match method with
  | .mean => fun j => (grp.map (fun v => v j)).sum / (grp.length : ℚ)
  | .median => fun j => medianQ (grp.map (fun v => v j))

/-- Modelled from the spec: `aggregate` (lib.aggregate.aggregate, not part
of this repository) collapses all rows sharing a (non-null) perturbation
value into one record holding the perturbation, the aggregated feature
vector and the count of contributing cells.  A row is modelled as its
perturbation value paired with its normalized embedding vector. -/

def aggregate {K : Type} [DecidableEq K] {d : ℕ} (method : AggMethod)
    (rows : List (Option K × (Fin d → ℚ))) : List (K × (Fin d → ℚ) × ℕ) :=
  ((rows.filterMap Prod.fst).dedup).map (fun k =>
    (k, aggregateVec method ((rows.filter (fun r => r.1 = some k)).map Prod.snd),
     (rows.filter (fun r => r.1 = some k)).length))

/-! ## TVN normalizer (modelled from the spec, over the reals)

The control-referenced normalizer of component 4.5: per batch, compute the
control population's mean and covariance in PCA space, derive a whitening
transform as the inverse matrix square root of the control covariance, and
apply `(x - control_mean) @ whitening_transform` to every row.  The batch's
control rows are a family of vectors indexed by `Fin n`. -/

/-- Mean vector of a family of `d`-dimensional real vectors. -/

noncomputable def sampleMean {n d : ℕ} (xs : Fin n → Fin d → ℝ) : Fin d → ℝ :=
  ((n : ℝ))⁻¹ • ∑ i, xs i

/-- The family's data matrix with the mean subtracted from every row. -/

noncomputable def centeredMatrix {n d : ℕ} (xs : Fin n → Fin d → ℝ) :
    Matrix (Fin n) (Fin d) ℝ :=
  Matrix.of (fun i j => xs i j - sampleMean xs j)

/-- Sample covariance (normalized by `n`) of a family of vectors. -/

noncomputable def sampleCov {n d : ℕ} (xs : Fin n → Fin d → ℝ) :
    Matrix (Fin d) (Fin d) ℝ :=
  ((n : ℝ))⁻¹ • ((centeredMatrix xs).transpose * centeredMatrix xs)

open Classical in

/-- Modelled from the spec: the whitening transform of `tvn_on_controls`
(lib.aggregate.align, not part of this repository) — the inverse matrix
square root of the control covariance, the example formulation the spec
gives.  Outside the positive-definite case (which the spec excludes via its
singularity precondition) the value is irrelevant and defaults to 1. -/

noncomputable def whitening_transform {d : ℕ} (S : Matrix (Fin d) (Fin d) ℝ) :
    Matrix (Fin d) (Fin d) ℝ :=
  if h : S.PosDef then (h.inv.posSemidef).sqrt else 1

/-- Modelled from the spec: `tvn_on_controls` applies
`(x - control_mean) @ whitening_transform(control_cov)` to a row `x` of the
batch, control and non-control alike. -/

noncomputable def tvn_on_controls {n d : ℕ} (controls : Fin n → Fin d → ℝ)
    (x : Fin d → ℝ) : Fin d → ℝ :=
  Matrix.vecMul (fun j => x j - sampleMean controls j)
    (whitening_transform (sampleCov controls))

/-- Concrete control batch for the C1 witness: two one-dimensional control
rows with values 0 and 2. -/

def c1Controls : Fin 2 → Fin 1 → ℝ := ![![0], ![2]]

/-! ## Theorems -/

lemma find?_map_overwrite {V : Type} (cfg : List (String × V)) (k k' : String)
    (v : V) (hk : k ≠ k') :
    (cfg.map (fun p => if p.1 = k' then (k', v) else p)).find? (fun p => p.1 = k) =
      cfg.find? (fun p => p.1 = k) := by
  induction cfg with
  | nil => simp
  | cons p t ih =>
    simp only [List.map_cons]
    by_cases hp : p.1 = k'
    · have hpk : ¬ (p.1 = k) := fun h => hk (h.symm.trans hp)
      rw [if_pos hp]
      rw [List.find?_cons_of_neg _ (by simpa using fun h => hk h.symm)]
      rw [List.find?_cons_of_neg _ (by simpa using hpk)]
      exact ih
    · rw [if_neg hp]
      by_cases hpk : p.1 = k
      · rw [List.find?_cons_of_pos _ (by simpa using hpk),
          List.find?_cons_of_pos _ (by simpa using hpk)]
      · rw [List.find?_cons_of_neg _ (by simpa using hpk),
          List.find?_cons_of_neg _ (by simpa using hpk)]
        exact ih

lemma find?_dictSet_ne {V : Type} (cfg : List (String × V)) (k k' : String)
    (v : V) (hk : k ≠ k') :
    (dictSet cfg k' v).find? (fun p => p.1 = k) = cfg.find? (fun p => p.1 = k) := by
  unfold dictSet
  by_cases hmem : cfg.any (fun p => p.1 = k')
  · simp only [hmem, if_true]
    exact find?_map_overwrite cfg k k' v hk
  · rw [if_neg hmem]
    rw [List.find?_append]
    have h1 : ([(k', v)].find? (fun p => p.1 = k)) = none := by
      simp [List.find?, hk.symm]
    rw [h1]
    cases cfg.find? (fun p => p.1 = k) <;> rfl

lemma lookupKey_dictSet_ne {V : Type} (cfg : List (String × V)) (k k' : String)
    (v : V) (hk : k ≠ k') :
    lookupKey (dictSet cfg k' v) k = lookupKey cfg k := by
  unfold lookupKey
  rw [find?_dictSet_ne cfg k k' v hk]

/-- C9: persisting the aggregate parameters modifies only the `aggregate`
key of the loaded configuration mapping; every other top-level section is
written back unchanged.  Likewise the merge notebook modifies only the
`merge` key. -/

theorem C9_config_write_touches_only_own_section {V : Type}
    (config : List (String × V)) (params : V) (key : String) :
    (key ≠ "aggregate" →
      lookupKey (write_aggregate_section config params) key = lookupKey config key) ∧
    (key ≠ "merge" →
      lookupKey (write_merge_section config params) key = lookupKey config key) := by
  constructor
  · intro h
    exact lookupKey_dictSet_ne config key ("aggregate") params h
  · intro h
    exact lookupKey_dictSet_ne config key ("merge") params h

/-- Witness for C9 at a concrete configuration: updating the `aggregate`
section leaves the `all` section unchanged. -/

theorem C9_config_write_touches_only_own_section_witness :
    lookupKey (write_aggregate_section [("all", 0), ("preprocess", 1)] 7) "all" =
      lookupKey [("all", 0), ("preprocess", 1)] "all" :=
  (C9_config_write_touches_only_own_section [("all", 0), ("preprocess", 1)] 7 ("all")).1
    (by decide)

/-- C10: when the SBS and phenotype plate-well sets differ, the merge-combo
generation warns and writes an empty table instead of raising an error;
when they are equal, the written table holds exactly the shared pairs. -/

theorem C10_merge_combos_empty_on_mismatch {P W : Type} [DecidableEq P] [DecidableEq W]
    (sbs_combos phenotype_combos : List (P × W)) :
    (sbs_combos.toFinset ≠ phenotype_combos.toFinset →
      merge_wildcard_combos sbs_combos phenotype_combos = (true, [])) ∧
    (sbs_combos.toFinset = phenotype_combos.toFinset →
      (merge_wildcard_combos sbs_combos phenotype_combos).1 = false ∧
      (merge_wildcard_combos sbs_combos phenotype_combos).2.toFinset =
        sbs_combos.toFinset ∩ phenotype_combos.toFinset) := by
  constructor
  · intro h
    simp [merge_wildcard_combos, h]
  · intro h
    refine ⟨by simp [merge_wildcard_combos, h], ?_⟩
    simp only [merge_wildcard_combos, h, if_true]
    rw [← h, Finset.inter_self]
    ext a
    simp [List.mem_toFinset, List.mem_dedup]

/-- Witness for C10 at concrete equal combo sets. -/

theorem C10_merge_combos_empty_on_mismatch_witness :
    (merge_wildcard_combos [((1 : ℕ), (2 : ℕ))] [(1, 2)]).1 = false ∧
    (merge_wildcard_combos [((1 : ℕ), (2 : ℕ))] [(1, 2)]).2.toFinset =
      [((1 : ℕ), (2 : ℕ))].toFinset ∩ [((1 : ℕ), (2 : ℕ))].toFinset :=
  (C10_merge_combos_empty_on_mismatch [(1, 2)] [(1, 2)]).2 (by decide)

/-- C3 (code bug): at a concrete input whose query filter drops the one row
carrying perturbation 1, the notebook reports 2 unique populations while
only 1 perturbation value survives the filters, contradicting the spec's
"count of unique surviving perturbation values". -/

theorem C3_notebook_reports_prefilter_population_count :
    (notebook_unique_populations_report [fun r => decide (r.1 = some 0)]
        [((some 0 : Option ℕ), ()), (some 1, ())]).1 = 2 ∧
    nunique ((notebook_unique_populations_report [fun r => decide (r.1 = some 0)]
        [((some 0 : Option ℕ), ()), (some 1, ())]).2.map Prod.fst) = 1 := by
  decide

/-- C6: when every listed metadata column is present, `split_cell_data`
returns a (metadata, features) pair whose column names partition the input
columns, with features preserving input column order, and with every output
column carrying the untouched per-row values of the corresponding input
column (hence identical row count and row order). -/

theorem C6_split_cell_data_partitions {α : Type} (table : List (String × List α))
    (metadata_cols : List String) (n : ℕ)
    (hpresent : ∀ c ∈ metadata_cols, ∃ col ∈ table, col.1 = c)
    (hrect : ∀ col ∈ table, col.2.length = n) :
    ∃ metadata features,
      split_cell_data table metadata_cols = Except.ok (metadata, features) ∧
      (∀ c, (c ∈ metadata.map Prod.fst ∨ c ∈ features.map Prod.fst) ↔
        c ∈ table.map Prod.fst) ∧
      features.map Prod.fst =
        (table.map Prod.fst).filter (fun c => !(decide (c ∈ metadata_cols))) ∧
      (∀ col ∈ metadata, col ∈ table) ∧
      (∀ col ∈ features, col ∈ table) ∧
      (∀ col ∈ metadata, col.2.length = n) ∧
      (∀ col ∈ features, col.2.length = n) := by
  have hcond : metadata_cols.all (fun c => table.any (fun col => col.1 = c)) = true := by
    rw [List.all_eq_true]
    intro c hc
    rw [List.any_eq_true]
    obtain ⟨col, hcol, hname⟩ := hpresent c hc
    exact ⟨col, hcol, by simpa using hname⟩
  rw [split_cell_data, if_pos hcond]
  refine ⟨_, _, rfl, ?_, ?_, ?_, ?_, ?_, ?_⟩
  · -- the two column-name sets partition the input column names
    intro c
    constructor
    · rintro (hc | hc)
      · rw [List.mem_map] at hc ⊢
        obtain ⟨p, hp, hpc⟩ := hc
        rw [List.mem_filterMap] at hp
        obtain ⟨c', _, hfind⟩ := hp
        exact ⟨p, List.mem_of_find?_eq_some hfind, hpc⟩
      · rw [List.mem_map] at hc ⊢
        obtain ⟨p, hp, hpc⟩ := hc
        exact ⟨p, (List.mem_filter.mp hp).1, hpc⟩
    · intro hc
      rw [List.mem_map] at hc
      obtain ⟨p, hp, hpc⟩ := hc
      by_cases hm : c ∈ metadata_cols
      · left
        rw [List.mem_map]
        obtain ⟨col, hcol, hname⟩ := hpresent c hm
        have hfind : (table.find? (fun col => col.1 = c)).isSome = true := by
          rw [List.find?_isSome]
          exact ⟨col, hcol, by simpa using hname⟩
        obtain ⟨q, hq⟩ := Option.isSome_iff_exists.mp hfind
        refine ⟨q, List.mem_filterMap.mpr ⟨c, hm, hq⟩, ?_⟩
        have := List.find?_some hq
        simpa using this
      · right
        rw [List.mem_map]
        refine ⟨p, List.mem_filter.mpr ⟨hp, ?_⟩, hpc⟩
        simp [hpc, hm]
  · -- features preserve the input column order
    rw [List.filter_map]
    rfl
  · -- each metadata column is an input column, values untouched
    intro col hcol
    rw [List.mem_filterMap] at hcol
    obtain ⟨c, _, hfind⟩ := hcol
    exact List.mem_of_find?_eq_some hfind
  · -- each feature column is an input column, values untouched
    intro col hcol
    exact (List.mem_filter.mp hcol).1
  · -- metadata row count equals the input row count
    intro col hcol
    rw [List.mem_filterMap] at hcol
    obtain ⟨c, _, hfind⟩ := hcol
    exact hrect col (List.mem_of_find?_eq_some hfind)
  · -- features row count equals the input row count
    intro col hcol
    exact hrect col (List.mem_filter.mp hcol).1

/-- Witness for C6 at a concrete two-column table split on one metadata
column. -/

theorem C6_split_cell_data_partitions_witness :
    ∃ metadata features,
      split_cell_data [("plate", [1]), ("area", [2])] ["plate"] =
        Except.ok (metadata, features) ∧
      (∀ col ∈ metadata, col ∈ [("plate", [1]), ("area", [2])]) ∧
      (∀ col ∈ features, col ∈ [("plate", [1]), ("area", [2])]) := by
  obtain ⟨md, ft, h1, _, _, h4, h5, _, _⟩ :=
    C6_split_cell_data_partitions [("plate", [1]), ("area", [2])] ["plate"] 1
      (by decide) (by decide)
  exact ⟨md, ft, h1, h4, h5⟩

lemma missing_values_filter_true_eq {M : Type} (Tc Tr : ℚ) (metadata : List M)
    (cols : List (List (Option ℚ))) :
    missing_values_filter Tc Tr true metadata cols =
      Except.ok (mvfDroppedMeta Tc Tr metadata cols,
        (mvfDroppedCols Tc Tr metadata cols).map imputeCol) := rfl

lemma missing_values_filter_false_eq {M : Type} (Tc Tr : ℚ) (metadata : List M)
    (cols : List (List (Option ℚ))) :
    missing_values_filter Tc Tr false metadata cols =
      if (mvfDroppedCols Tc Tr metadata cols).any (fun c => c.any (fun x => x.isNone)) then
        Except.error PipelineError.alignmentPreconditionError
      else Except.ok (mvfDroppedMeta Tc Tr metadata cols,
        mvfDroppedCols Tc Tr metadata cols) := rfl

/-- C4 (amended): with imputation enabled the filter succeeds and its output
features contain no nulls; with imputation disabled a successful output
contains no nulls, and the only failure the filter can raise is
AlignmentPreconditionError, raised exactly when imputation is disabled. -/

theorem C4_missing_values_filter_resolves_nulls {M : Type}
    (Tc Tr : ℚ) (metadata : List M) (cols : List (List (Option ℚ))) :
    (∃ m f, missing_values_filter Tc Tr true metadata cols = Except.ok (m, f) ∧
      ∀ c ∈ f, ∀ x ∈ c, x.isSome = true) ∧
    (∀ m f, missing_values_filter Tc Tr false metadata cols = Except.ok (m, f) →
      ∀ c ∈ f, ∀ x ∈ c, x.isSome = true) ∧
    (∀ (impute : Bool) (e : PipelineError),
      missing_values_filter Tc Tr impute metadata cols = Except.error e →
      impute = false ∧ e = PipelineError.alignmentPreconditionError) := by
  refine ⟨?_, ?_, ?_⟩
  · refine ⟨_, _, missing_values_filter_true_eq Tc Tr metadata cols, ?_⟩
    intro c hc x hx
    rw [List.mem_map] at hc
    obtain ⟨c', _, hc'⟩ := hc
    subst hc'
    rw [imputeCol, List.mem_map] at hx
    obtain ⟨y, _, hy⟩ := hx
    rw [← hy]
    rfl
  · intro m f hok c hc x hx
    rw [missing_values_filter_false_eq] at hok
    by_cases hany : ((mvfDroppedCols Tc Tr metadata cols).any
        (fun c => c.any (fun x => x.isNone))) = true
    · rw [if_pos hany] at hok
      exact Except.noConfusion hok
    · rw [if_neg hany] at hok
      rw [Bool.not_eq_true, List.any_eq_false] at hany
      have hf : f = mvfDroppedCols Tc Tr metadata cols :=
        congrArg Prod.snd (Except.ok.inj hok).symm
      have h1 := hany c (hf ▸ hc)
      have hx' : ¬(x.isNone = true) := fun hxn =>
        h1 (List.any_eq_true.mpr ⟨x, hx, hxn⟩)
      cases x with
      | none => exact absurd rfl hx'
      | some v => rfl
  · intro impute e herr
    cases impute with
    | true =>
      rw [missing_values_filter_true_eq] at herr
      exact Except.noConfusion herr
    | false =>
      refine ⟨rfl, ?_⟩
      rw [missing_values_filter_false_eq] at herr
      by_cases hany : ((mvfDroppedCols Tc Tr metadata cols).any
          (fun c => c.any (fun x => x.isNone))) = true
      · rw [if_pos hany] at herr
        exact (Except.error.inj herr).symm
      · rw [if_neg hany] at herr
        exact Except.noConfusion herr

/-- Witness for C4 at a concrete input containing a null. -/

theorem C4_missing_values_filter_resolves_nulls_witness :
    ∃ m f, missing_values_filter 1 1 true ([0] : List ℕ) [[(none : Option ℚ)]] =
        Except.ok (m, f) ∧ ∀ c ∈ f, ∀ x ∈ c, x.isSome = true :=
  (C4_missing_values_filter_resolves_nulls 1 1 [0] [[none]]).1

/-- Counterexample for C4 as stated: the notebook stage does NOT forward the
user-configured impute value.  With IMPUTE set to false on a feature table
with a remaining null, the notebook call still imputes (the literal
impute=True in the source), while an impute=false call fails with
AlignmentPreconditionError. -/

theorem C4_notebook_ignores_impute_parameter :
    notebook_missing_values_stage false 1 1 ([0] : List ℕ) [[(none : Option ℚ)]] ≠
      missing_values_filter 1 1 false ([0] : List ℕ) [[(none : Option ℚ)]] := by
  have e1 : colNullFrac [(none : Option ℚ)] = 1 := by
    norm_num [colNullFrac, List.countP_cons, List.countP_nil]
  have e2 : mvfKeptCols 1 [[(none : Option ℚ)]] = [[(none : Option ℚ)]] := by
    simp [mvfKeptCols, e1]
  have e3 : rowNullFrac [[(none : Option ℚ)]] 0 = 1 := by
    norm_num [rowNullFrac, List.countP_cons, List.countP_nil, List.getD]
  have e4 : mvfKeptRows 1 1 1 [[(none : Option ℚ)]] = [0] := by
    rw [mvfKeptRows, e2]
    simp [List.range_succ, e3]
  have e5 : mvfDroppedMeta 1 1 ([0] : List ℕ) [[(none : Option ℚ)]] = [0] := by
    rw [mvfDroppedMeta]
    simp only [List.length_cons, List.length_nil, e4]
    simp [selectIdx]
  have e6 : mvfDroppedCols 1 1 ([0] : List ℕ) [[(none : Option ℚ)]] =
      [[(none : Option ℚ)]] := by
    rw [mvfDroppedCols, e2]
    simp only [List.length_cons, List.length_nil, e4]
    simp [selectIdx]
  have hL : notebook_missing_values_stage false 1 1 ([0] : List ℕ)
      [[(none : Option ℚ)]] = Except.ok ([0], [[some 0]]) := by
    rw [notebook_missing_values_stage, missing_values_filter_true_eq, e5, e6]
    simp [imputeCol, medianQ]
  have hR : missing_values_filter 1 1 false ([0] : List ℕ) [[(none : Option ℚ)]] =
      Except.error PipelineError.alignmentPreconditionError := by
    rw [missing_values_filter_false_eq, e6]
    simp
  rw [hL, hR]
  exact fun h => Except.noConfusion h

lemma count_true_eq_zero_all_false (flags : List Bool)
    (h : flags.count true = 0) : ∀ b ∈ flags, b = false := by
  intro b hb
  cases b with
  | false => rfl
  | true => exact absurd hb (List.count_eq_zero.mp h)

lemma intensity_filter_keep_all {R : Type} (rows : List R) (flags : List Bool)
    (hlen : flags.length = rows.length) (hall : ∀ b ∈ flags, b = false) :
    intensity_filter rows flags = rows := by
  rw [intensity_filter]
  induction rows generalizing flags with
  | nil => simp
  | cons r t ih =>
    cases flags with
    | nil => exact absurd hlen (by simp)
    | cons b bs =>
      have hb : b = false := hall b (List.mem_cons_self b bs)
      subst hb
      rw [List.zip_cons_cons, List.filter_cons]
      simp [ih bs (by simpa using hlen) (fun x hx => hall x (List.mem_cons_of_mem _ hx))]

lemma intensity_filter_length {R : Type} (rows : List R) (flags : List Bool)
    (hlen : flags.length = rows.length) :
    (intensity_filter rows flags).length = flags.countP (fun b => !b) := by
  rw [intensity_filter]
  induction rows generalizing flags with
  | nil =>
    cases flags with
    | nil => rfl
    | cons b bs => exact absurd hlen (by simp)
  | cons r t ih =>
    cases flags with
    | nil => exact absurd hlen (by simp)
    | cons b bs =>
      rw [List.zip_cons_cons, List.filter_cons, List.countP_cons]
      cases b with
      | false => simp [ih bs (by simpa using hlen)]
      | true => simp [ih bs (by simpa using hlen)]

lemma countP_not_add_count_true (flags : List Bool) :
    flags.countP (fun b => !b) + flags.count true = flags.length := by
  induction flags with
  | nil => rfl
  | cons b bs ih =>
    rw [List.countP_cons, List.count_cons, List.length_cons]
    cases b <;> simp <;> omega

/-- C7: under the spec's contract for the detector, contamination = 0
retains every row, and contamination within 1/n of 1 leaves at most one
row. -/

theorem C7_intensity_filter_contamination_boundaries {R : Type} (rows : List R)
    (contamination : ℚ) (flags : List Bool)
    (hadm : admissibleFlags contamination rows.length flags) :
    (contamination = 0 → intensity_filter rows flags = rows) ∧
    (1 - 1 / (rows.length : ℚ) ≤ contamination →
      (intensity_filter rows flags).length ≤ 1) := by
  obtain ⟨hlen, hcount⟩ := hadm
  constructor
  · intro hc
    subst hc
    rw [zero_mul, Int.floor_zero, Int.toNat_zero] at hcount
    exact intensity_filter_keep_all rows flags hlen
      (count_true_eq_zero_all_false flags hcount)
  · intro hc
    rcases Nat.eq_zero_or_pos rows.length with hn | hn
    · rw [intensity_filter_length rows flags hlen]
      have : flags = [] := List.length_eq_zero.mp (by omega)
      subst this
      simp
    · have hfloor : ((rows.length : ℤ) - 1) ≤ ⌊contamination * (rows.length : ℚ)⌋ := by
        rw [Int.le_floor]
        have hpos : (0 : ℚ) < (rows.length : ℚ) := by
          exact_mod_cast hn
        have h1 : ((rows.length : ℚ) - 1) / (rows.length : ℚ) ≤ contamination := by
          rw [sub_div, div_self (ne_of_gt hpos)]
          exact hc
        calc (((rows.length : ℤ) - 1 : ℤ) : ℚ) = (rows.length : ℚ) - 1 := by push_cast; ring
          _ = ((rows.length : ℚ) - 1) / (rows.length : ℚ) * (rows.length : ℚ) := by
              rw [div_mul_cancel₀]
              exact ne_of_gt hpos
          _ ≤ contamination * (rows.length : ℚ) := by
              exact mul_le_mul_of_nonneg_right h1 (le_of_lt hpos)
      have hge : rows.length - 1 ≤ flags.count true := by
        rw [hcount]
        have := Int.toNat_le_toNat hfloor
        omega
      have hle : flags.count true ≤ flags.length := List.count_le_length true flags
      have hsum := countP_not_add_count_true flags
      rw [intensity_filter_length rows flags hlen]
      omega

/-- Witness for C7: with contamination 0 and the (unique) admissible flag
vector on three rows, every row is retained. -/

theorem C7_intensity_filter_contamination_boundaries_witness :
    intensity_filter [10, 20, 30] [false, false, false] = ([10, 20, 30] : List ℕ) := by
  have hadm : admissibleFlags 0 ([10, 20, 30] : List ℕ).length [false, false, false] := by
    constructor
    · rfl
    · have h0 : (⌊(0 : ℚ) * ((([10, 20, 30] : List ℕ).length : ℕ) : ℚ)⌋).toNat = 0 := by
        norm_num
      rw [h0]
      rfl
  exact (C7_intensity_filter_contamination_boundaries [10, 20, 30] 0
    [false, false, false] hadm).1 rfl

/-! ## Idempotence of the filter chain -/

lemma selectIdx_range_self {α : Type} (l : List α) :
    selectIdx l (List.range l.length) = l := by
  rw [selectIdx]
  induction l with
  | nil => rfl
  | cons a t ih =>
    rw [List.length_cons, List.range_succ_eq_map, List.filterMap_cons]
    simp only [List.getElem?_cons_zero]
    rw [List.filterMap_map]
    have he : ((fun i => (a :: t)[i]?) ∘ Nat.succ) = (fun i => t[i]?) :=
      funext (fun i => List.getElem?_cons_succ)
    rw [he, ih]

lemma selectIdx_length_of_lt {α : Type} (l : List α) (idxs : List ℕ)
    (h : ∀ i ∈ idxs, i < l.length) : (selectIdx l idxs).length = idxs.length := by
  rw [selectIdx]
  induction idxs with
  | nil => rfl
  | cons i t ih =>
    rw [List.filterMap_cons,
      List.getElem?_eq_getElem (h i (List.mem_cons_self i t))]
    simp only [List.length_cons]
    rw [ih (fun j hj => h j (List.mem_cons_of_mem _ hj))]

lemma mem_of_mem_selectIdx {α : Type} (l : List α) (idxs : List ℕ) {x : α}
    (hx : x ∈ selectIdx l idxs) : x ∈ l := by
  rw [selectIdx, List.mem_filterMap] at hx
  obtain ⟨i, _, hi⟩ := hx
  obtain ⟨hlt, he⟩ := List.getElem?_eq_some.mp hi
  exact he ▸ List.getElem_mem hlt

lemma colNullFrac_of_all_some (c : List (Option ℚ))
    (h : ∀ x ∈ c, x.isSome = true) : colNullFrac c = 0 := by
  rw [colNullFrac]
  have hcount : c.countP (fun x => x.isNone) = 0 := by
    rw [List.countP_eq_zero]
    intro x hx
    have hs := h x hx
    cases x with
    | none => exact absurd hs (by simp)
    | some v => simp
  rw [hcount]
  simp

lemma rowNullFrac_of_all_some (cols : List (List (Option ℚ))) (i : ℕ)
    (h : ∀ c ∈ cols, ∀ x ∈ c, x.isSome = true) : rowNullFrac cols i = 0 := by
  rw [rowNullFrac]
  have hcount : cols.countP (fun c => (c.getD i (some 0)).isNone) = 0 := by
    rw [List.countP_eq_zero]
    intro col hcol
    rw [List.getD_eq_getElem?_getD]
    cases hval : col[i]? with
    | none => simp
    | some v =>
      simp only [hval, Option.getD_some]
      have hvmem : v ∈ col := by
        obtain ⟨hlt, he⟩ := List.getElem?_eq_some.mp hval
        exact he ▸ List.getElem_mem hlt
      have hs := h col hcol v hvmem
      cases v with
      | none => exact absurd hs (by simp)
      | some w => simp
  rw [hcount]
  simp

lemma imputeCol_of_all_some (c : List (Option ℚ))
    (h : ∀ x ∈ c, x.isSome = true) : imputeCol c = c := by
  rw [imputeCol]
  have : ∀ x ∈ c, some (x.getD (medianQ (c.filterMap id))) = x := by
    intro x hx
    cases x with
    | none => exact absurd (h none hx) (by simp)
    | some v => rfl
  calc c.map (fun x => some (x.getD (medianQ (c.filterMap id))))
      = c.map id := List.map_congr_left this
    _ = c := List.map_id c

lemma query_filter_idempotent {R : Type} (queries : List (R → Bool))
    (rows : List R) :
    query_filter queries (query_filter queries rows) = query_filter queries rows := by
  rw [query_filter, query_filter, List.filter_filter]
  simp

lemma perturbation_filter_idempotent {K F : Type} (rows : List (Option K × F)) :
    perturbation_filter (perturbation_filter rows) = perturbation_filter rows := by
  rw [perturbation_filter, perturbation_filter, List.filter_filter]
  simp

lemma missing_values_filter_idempotent {M : Type} (Tc Tr : ℚ) (impute : Bool)
    (metadata : List M) (cols : List (List (Option ℚ)))
    (hTc : 0 ≤ Tc) (hTr : 0 ≤ Tr)
    (hrect : ∀ c ∈ cols, c.length = metadata.length)
    (m : List M) (f : List (List (Option ℚ)))
    (h : missing_values_filter Tc Tr impute metadata cols = Except.ok (m, f)) :
    missing_values_filter Tc Tr impute m f = Except.ok (m, f) := by
  -- facts about the first run's output
  have hkeep : ∀ i ∈ mvfKeptRows Tc Tr metadata.length cols, i < metadata.length := by
    intro i hi
    rw [mvfKeptRows, List.mem_filter] at hi
    exact List.mem_range.mp hi.1
  have hmlen : (mvfDroppedMeta Tc Tr metadata cols).length =
      (mvfKeptRows Tc Tr metadata.length cols).length := by
    rw [mvfDroppedMeta]
    exact selectIdx_length_of_lt _ _ hkeep
  have hflen : ∀ c ∈ mvfDroppedCols Tc Tr metadata cols,
      c.length = (mvfDroppedMeta Tc Tr metadata cols).length := by
    intro c hc
    rw [mvfDroppedCols, List.mem_map] at hc
    obtain ⟨c0, hc0, hc0e⟩ := hc
    have hc0cols : c0 ∈ cols := by
      rw [mvfKeptCols, List.mem_filter] at hc0
      exact hc0.1
    rw [← hc0e, hmlen]
    exact selectIdx_length_of_lt c0 _ (fun i hi => (hrect c0 hc0cols) ▸ hkeep i hi)
  -- characterise the first run's output in each impute mode
  have main : ∀ (mm : List M) (ff : List (List (Option ℚ))),
      mm = m → ff = f →
      (∀ c ∈ f, ∀ x ∈ c, x.isSome = true) →
      (∀ c ∈ f, c.length = m.length) →
      missing_values_filter Tc Tr impute m f = Except.ok (m, f) := by
    intro mm ff _ _ hsome hlen
    have hcols1 : mvfKeptCols Tc f = f := by
      rw [mvfKeptCols, List.filter_eq_self]
      intro c hc
      rw [decide_eq_true_eq, colNullFrac_of_all_some c (hsome c hc)]
      exact hTc
    have hkeep2 : mvfKeptRows Tc Tr m.length f = List.range m.length := by
      rw [mvfKeptRows, hcols1, List.filter_eq_self]
      intro i hi
      rw [decide_eq_true_eq, rowNullFrac_of_all_some f i hsome]
      exact hTr
    have hmeta2 : mvfDroppedMeta Tc Tr m f = m := by
      rw [mvfDroppedMeta, hkeep2]
      exact selectIdx_range_self m
    have hcols2 : mvfDroppedCols Tc Tr m f = f := by
      rw [mvfDroppedCols, hcols1, hkeep2]
      calc f.map (fun c => selectIdx c (List.range m.length))
          = f.map id := by
            apply List.map_congr_left
            intro c hc
            rw [← hlen c hc]
            exact selectIdx_range_self c
        _ = f := List.map_id f
    cases impute with
    | true =>
      rw [missing_values_filter_true_eq, hmeta2, hcols2]
      have : f.map imputeCol = f := by
        calc f.map imputeCol = f.map id :=
            List.map_congr_left (fun c hc => imputeCol_of_all_some c (hsome c hc))
          _ = f := List.map_id f
      rw [this]
    | false =>
      rw [missing_values_filter_false_eq, hmeta2, hcols2]
      have hany : (f.any (fun c => c.any (fun x => x.isNone))) = false := by
        rw [List.any_eq_false]
        intro c hc
        rw [Bool.not_eq_true, List.any_eq_false]
        intro x hx
        rw [Bool.not_eq_true]
        have := hsome c hc x hx
        cases x with
        | none => exact absurd this (by simp)
        | some v => rfl
      rw [hany]
      simp
  cases impute with
  | true =>
    rw [missing_values_filter_true_eq] at h
    have hm : mvfDroppedMeta Tc Tr metadata cols = m :=
      congrArg Prod.fst (Except.ok.inj h)
    have hf : (mvfDroppedCols Tc Tr metadata cols).map imputeCol = f :=
      congrArg Prod.snd (Except.ok.inj h)
    refine main m f rfl rfl ?_ ?_
    · intro c hc x hx
      rw [← hf, List.mem_map] at hc
      obtain ⟨c', _, hc'⟩ := hc
      subst hc'
      rw [imputeCol, List.mem_map] at hx
      obtain ⟨y, _, hy⟩ := hx
      rw [← hy]
      rfl
    · intro c hc
      rw [← hf, List.mem_map] at hc
      obtain ⟨c', hc', hce⟩ := hc
      rw [← hce, imputeCol, List.length_map, ← hm]
      exact hflen c' hc'
  | false =>
    rw [missing_values_filter_false_eq] at h
    by_cases hany : ((mvfDroppedCols Tc Tr metadata cols).any
        (fun c => c.any (fun x => x.isNone))) = true
    · rw [if_pos hany] at h
      exact Except.noConfusion h
    · rw [if_neg hany] at h
      have hm : mvfDroppedMeta Tc Tr metadata cols = m :=
        congrArg Prod.fst (Except.ok.inj h)
      have hf : mvfDroppedCols Tc Tr metadata cols = f :=
        congrArg Prod.snd (Except.ok.inj h)
      rw [Bool.not_eq_true, List.any_eq_false] at hany
      refine main m f rfl rfl ?_ ?_
      · intro c hc x hx
        have h1 := hany c (hf ▸ hc)
        have hx' : ¬(x.isNone = true) := fun hxn =>
          h1 (List.any_eq_true.mpr ⟨x, hx, hxn⟩)
        cases x with
        | none => exact absurd rfl hx'
        | some v => rfl
      · intro c hc
        rw [← hm]
        exact hflen c (hf ▸ hc)

lemma intensity_filter_zero_idempotent {R : Type} (rows : List R)
    (flags1 flags2 : List Bool)
    (h1 : admissibleFlags 0 rows.length flags1)
    (h2 : admissibleFlags 0 (intensity_filter rows flags1).length flags2) :
    intensity_filter (intensity_filter rows flags1) flags2 =
      intensity_filter rows flags1 := by
  obtain ⟨hlen2, hcount2⟩ := h2
  rw [zero_mul, Int.floor_zero, Int.toNat_zero] at hcount2
  exact intensity_filter_keep_all _ flags2 hlen2
    (count_true_eq_zero_all_false flags2 hcount2)

/-- C8 (amended): the query, perturbation and missing-value filters are
idempotent (the latter on the success path, for nonnegative thresholds and a
row-aligned feature table); the intensity filter is idempotent when
contamination is 0, but not in general (see the counterexample). -/

theorem C8_filter_chain_idempotence :
    (∀ (R : Type) (queries : List (R → Bool)) (rows : List R),
      query_filter queries (query_filter queries rows) = query_filter queries rows) ∧
    (∀ (K F : Type) (rows : List (Option K × F)),
      perturbation_filter (perturbation_filter rows) = perturbation_filter rows) ∧
    (∀ (M : Type) (Tc Tr : ℚ) (impute : Bool) (metadata : List M)
      (cols : List (List (Option ℚ))) (m : List M) (f : List (List (Option ℚ))),
      0 ≤ Tc → 0 ≤ Tr → (∀ c ∈ cols, c.length = metadata.length) →
      missing_values_filter Tc Tr impute metadata cols = Except.ok (m, f) →
      missing_values_filter Tc Tr impute m f = Except.ok (m, f)) ∧
    (∀ (R : Type) (rows : List R) (flags1 flags2 : List Bool),
      admissibleFlags 0 rows.length flags1 →
      admissibleFlags 0 (intensity_filter rows flags1).length flags2 →
      intensity_filter (intensity_filter rows flags1) flags2 =
        intensity_filter rows flags1) := by
  refine ⟨?_, ?_, ?_, ?_⟩
  · intro R queries rows
    exact query_filter_idempotent queries rows
  · intro K F rows
    exact perturbation_filter_idempotent rows
  · intro M Tc Tr impute metadata cols m f hTc hTr hrect h
    exact missing_values_filter_idempotent Tc Tr impute metadata cols hTc hTr hrect m f h
  · intro R rows flags1 flags2 h1 h2
    exact intensity_filter_zero_idempotent rows flags1 flags2 h1 h2

/-- Counterexample for C8 as stated: the intensity filter is not idempotent.
With contamination 1/2 on four rows, a first admissible application drops
two rows; a second admissible application on the two survivors drops one
more, so applying the filter twice differs from applying it once. -/

theorem C8_intensity_filter_not_idempotent :
    admissibleFlags (1 / 2) 4 [true, true, false, false] ∧
    admissibleFlags (1 / 2) 2 [true, false] ∧
    intensity_filter (intensity_filter ([1, 2, 3, 4] : List ℕ)
        [true, true, false, false]) [true, false] ≠
      intensity_filter ([1, 2, 3, 4] : List ℕ) [true, true, false, false] := by
  have h4 : (⌊(1 / 2 : ℚ) * ((4 : ℕ) : ℚ)⌋).toNat = 2 := by
    rw [show (⌊(1 / 2 : ℚ) * ((4 : ℕ) : ℚ)⌋ : ℤ) = 2 from by norm_num]
    rfl
  have h2 : (⌊(1 / 2 : ℚ) * ((2 : ℕ) : ℚ)⌋).toNat = 1 := by
    rw [show (⌊(1 / 2 : ℚ) * ((2 : ℕ) : ℚ)⌋ : ℤ) = 1 from by norm_num]
    rfl
  refine ⟨⟨rfl, ?_⟩, ⟨rfl, ?_⟩, ?_⟩
  · rw [h4]
    rfl
  · rw [h2]
    rfl
  · decide

/-- Witness for C8: the missing-value filter conjunct at a concrete run that
drops one row; re-running the filter on its own output reproduces it. -/

theorem C8_filter_chain_idempotence_witness :
    missing_values_filter 1 0 true ([0] : List ℕ) [[some 1]] =
      Except.ok (([0] : List ℕ), [[some 1]]) := by
  have h := C8_filter_chain_idempotence.2.2.1 ℕ 1 0 true [0, 1] [[some 1, none]]
    [0] [[some 1]] (by norm_num) (by norm_num) (by intro c hc; fin_cases hc; rfl)
  apply h
  -- the first run drops the all-null second row and keeps the first
  have e1 : colNullFrac [some 1, (none : Option ℚ)] = 1 / 2 := by
    norm_num [colNullFrac, List.countP_cons, List.countP_nil]
  have e2 : mvfKeptCols 1 [[some 1, (none : Option ℚ)]] =
      [[some 1, (none : Option ℚ)]] := by
    rw [mvfKeptCols, List.filter_eq_self]
    intro c hc
    fin_cases hc
    rw [decide_eq_true_eq, e1]
    norm_num
  have e3 : rowNullFrac [[some 1, (none : Option ℚ)]] 0 = 0 := by
    norm_num [rowNullFrac, List.countP_cons, List.countP_nil, List.getD]
  have e4 : rowNullFrac [[some 1, (none : Option ℚ)]] 1 = 1 := by
    norm_num [rowNullFrac, List.countP_cons, List.countP_nil, List.getD]
  have e5 : mvfKeptRows 1 0 2 [[some 1, (none : Option ℚ)]] = [0] := by
    rw [mvfKeptRows, e2]
    rw [show List.range 2 = [0, 1] from rfl]
    rw [List.filter_cons, List.filter_cons, List.filter_nil]
    rw [e3, e4]
    norm_num
  rw [missing_values_filter_true_eq]
  rw [mvfDroppedMeta, mvfDroppedCols, e2]
  rw [show ([0, 1] : List ℕ).length = 2 from rfl, e5]
  rfl

/-- Counterexample for C5 as stated: on a concrete input whose single batch
has zero control rows, the alignment stage raises ConfigError (from
`prepare_alignment_data`, per the spec's component contract), not
AlignmentPreconditionError. -/

theorem C5_alignment_stage_raises_config_error_not_precondition :
    alignment_stage 2 [((0 : ℕ), some (1 : ℕ))] =
      Except.error PipelineError.configError ∧
    PipelineError.configError ≠ PipelineError.alignmentPreconditionError := by
  constructor
  · rfl
  · decide

/-- C5 (amended): a batch supplied with zero control rows is never silently
skipped: the alignment stage fails with ConfigError (raised by
`prepare_alignment_data`, whose contract the spec's component design
states), and `tvn_on_controls` invoked directly on such data fails with
AlignmentPreconditionError. -/

theorem C5_zero_control_batch_raises {B K : Type} [DecidableEq B] [DecidableEq K]
    (control_key : K) (rows : List (B × Option K)) (b : B)
    (hb : b ∈ rows.map Prod.fst)
    (hnoctrl : ∀ r ∈ rows, r.1 = b → r.2 ≠ some control_key) :
    alignment_stage control_key rows = Except.error PipelineError.configError ∧
    tvn_control_check control_key
        (rows.map (fun r => (r.1, r.2, decide (r.2 = some control_key)))) =
      Except.error PipelineError.alignmentPreconditionError := by
  have hprep : prepare_alignment_data control_key rows =
      Except.error PipelineError.configError := by
    rw [prepare_alignment_data, if_neg]
    intro hall
    rw [List.all_eq_true] at hall
    have hbany := hall b (List.mem_dedup.mpr hb)
    rw [List.any_eq_true] at hbany
    obtain ⟨r, hr, hrprop⟩ := hbany
    rw [decide_eq_true_eq] at hrprop
    exact hnoctrl r hr hrprop.1 hrprop.2
  constructor
  · rw [alignment_stage, hprep]
    rfl
  · rw [tvn_control_check, if_neg]
    intro hall
    rw [List.all_eq_true] at hall
    have hbmem : b ∈ ((rows.map
        (fun r => (r.1, r.2, decide (r.2 = some control_key)))).map Prod.fst) := by
      rw [List.map_map]
      exact hb
    have hbany := hall b (List.mem_dedup.mpr hbmem)
    rw [List.any_eq_true] at hbany
    obtain ⟨r', hr', hrprop⟩ := hbany
    rw [List.mem_map] at hr'
    obtain ⟨r, hr, hre⟩ := hr'
    rw [decide_eq_true_eq] at hrprop
    subst hre
    exact hnoctrl r hr hrprop.1 hrprop.2

/-- Witness for C5 at a concrete batch with two non-control rows. -/

theorem C5_zero_control_batch_raises_witness :
    alignment_stage 9 [((5 : ℕ), some (7 : ℕ)), (5, some 8)] =
      Except.error PipelineError.configError ∧
    tvn_control_check 9
        ([((5 : ℕ), some (7 : ℕ)), (5, some 8)].map
          (fun r => (r.1, r.2, decide (r.2 = some 9)))) =
      Except.error PipelineError.alignmentPreconditionError :=
  C5_zero_control_batch_raises 9 [(5, some 7), (5, some 8)] 5
    (by decide) (by decide)

lemma countP_isSome_eq_filterMap_length {K F : Type} (rows : List (Option K × F)) :
    rows.countP (fun r => r.1.isSome) = (rows.filterMap Prod.fst).length := by
  induction rows with
  | nil => rfl
  | cons r t ih =>
    rw [List.countP_cons, List.filterMap_cons]
    cases hr : r.1 with
    | none => simp [hr, ih]
    | some a => simp [hr, ih]

lemma filter_key_length_eq_count {K F : Type} [DecidableEq K]
    (rows : List (Option K × F)) (k : K) :
    (rows.filter (fun r => r.1 = some k)).length =
      (rows.filterMap Prod.fst).count k := by
  induction rows with
  | nil => rfl
  | cons r t ih =>
    rw [List.filter_cons, List.filterMap_cons]
    cases hr : r.1 with
    | none => simp [hr, ih]
    | some a =>
      by_cases hak : a = k
      · subst hak
        simp [hr, ih, List.count_cons]
      · simp [hr, ih, List.count_cons, hak, Option.some_inj]

lemma sum_dedup_count {K : Type} [DecidableEq K] (l : List K) :
    (l.dedup.map (fun k => l.count k)).sum = l.length := by
  have h := Multiset.toFinset_sum_count_eq (l : Multiset K)
  simpa [Finset.sum] using h

/-- C2: the aggregator emits one record per unique (non-null) perturbation
value; the cell counts sum to the number of input rows with a non-null
perturbation; and for method mean each aggregated feature value is the
arithmetic mean of the contributing rows' values for that feature. -/

theorem C2_aggregate_one_row_counts_mean {K : Type} [DecidableEq K] {d : ℕ}
    (method : AggMethod) (rows : List (Option K × (Fin d → ℚ))) :
    ((aggregate method rows).map (fun r => r.1) = (rows.filterMap Prod.fst).dedup ∧
      ((aggregate method rows).map (fun r => r.1)).Nodup ∧
      ∀ k, k ∈ (aggregate method rows).map (fun r => r.1) ↔
        some k ∈ rows.map Prod.fst) ∧
    ((aggregate method rows).map (fun r => r.2.2)).sum =
      rows.countP (fun r => r.1.isSome) ∧
    (∀ r ∈ aggregate AggMethod.mean rows, ∀ j,
      r.2.1 j =
        ((rows.filter (fun x => x.1 = some r.1)).map (fun x => x.2 j)).sum /
          ((rows.filter (fun x => x.1 = some r.1)).length : ℚ)) := by
  have hkeys : (aggregate method rows).map (fun r => r.1) =
      (rows.filterMap Prod.fst).dedup := by
    rw [aggregate, List.map_map]
    exact List.map_id _
  refine ⟨⟨hkeys, ?_, ?_⟩, ?_, ?_⟩
  · rw [hkeys]
    exact List.nodup_dedup _
  · intro k
    rw [hkeys, List.mem_dedup, List.mem_filterMap, List.mem_map]
  · rw [aggregate, List.map_map]
    have hcongr : ((rows.filterMap Prod.fst).dedup).map
        ((fun r => r.2.2) ∘ (fun k =>
          (k, aggregateVec method ((rows.filter (fun r => r.1 = some k)).map Prod.snd),
           (rows.filter (fun r => r.1 = some k)).length))) =
        ((rows.filterMap Prod.fst).dedup).map
          (fun k => (rows.filterMap Prod.fst).count k) :=
      List.map_congr_left (fun k _ => filter_key_length_eq_count rows k)
    rw [hcongr, sum_dedup_count, countP_isSome_eq_filterMap_length]
  · intro r hr j
    rw [aggregate, List.mem_map] at hr
    obtain ⟨k, _, hk⟩ := hr
    subst hk
    simp only [aggregateVec, List.map_map, List.length_map]
    rfl

/-- Witness for C2 at a concrete three-row input with one null
perturbation: the cell counts sum to the non-null row count. -/

theorem C2_aggregate_one_row_counts_mean_witness :
    ((aggregate AggMethod.mean
        [((some 0 : Option ℕ), (fun _ => 1 : Fin 1 → ℚ)), (none, fun _ => 2),
         (some 0, fun _ => 3)]).map (fun r => r.2.2)).sum =
      ([((some 0 : Option ℕ), (fun _ => 1 : Fin 1 → ℚ)), (none, fun _ => 2),
        (some 0, fun _ => 3)]).countP (fun r => r.1.isSome) :=
  (C2_aggregate_one_row_counts_mean AggMethod.mean
    [((some 0 : Option ℕ), (fun _ => 1 : Fin 1 → ℚ)), (none, fun _ => 2),
     (some 0, fun _ => 3)]).2.1

lemma sum_centered_eq_zero {n d : ℕ} (xs : Fin n → Fin d → ℝ) (hn : 0 < n)
    (k : Fin d) : ∑ i, centeredMatrix xs i k = 0 := by
  have hne : (n : ℝ) ≠ 0 := Nat.cast_ne_zero.mpr hn.ne'
  simp only [centeredMatrix, Matrix.of_apply, sampleMean, Pi.smul_apply,
    Finset.sum_apply, smul_eq_mul]
  rw [Finset.sum_sub_distrib, Finset.sum_const, Finset.card_univ, Fintype.card_fin,
    nsmul_eq_mul]
  field_simp

lemma tvn_row_eq {n d : ℕ} (xs : Fin n → Fin d → ℝ) (i : Fin n) (j : Fin d) :
    tvn_on_controls xs (xs i) j =
      ∑ k, centeredMatrix xs i k * (whitening_transform (sampleCov xs)) k j := by
  simp [tvn_on_controls, Matrix.vecMul, Matrix.dotProduct, centeredMatrix]

lemma tvn_mean_zero {n d : ℕ} (xs : Fin n → Fin d → ℝ) (hn : 0 < n) :
    sampleMean (fun i => tvn_on_controls xs (xs i)) = 0 := by
  funext j
  simp only [sampleMean, Pi.smul_apply, Finset.sum_apply, smul_eq_mul, Pi.zero_apply]
  have hz : ∑ i, tvn_on_controls xs (xs i) j = 0 := by
    rw [Finset.sum_congr rfl (fun i _ => tvn_row_eq xs i j), Finset.sum_comm]
    rw [Finset.sum_congr rfl
      (fun k _ => (Finset.sum_mul Finset.univ (fun i => centeredMatrix xs i k)
        ((whitening_transform (sampleCov xs)) k j)).symm)]
    rw [Finset.sum_congr rfl
      (fun k _ => by rw [sum_centered_eq_zero xs hn k, zero_mul])]
    exact Finset.sum_const_zero
  rw [hz, mul_zero]

lemma whitening_transpose {d : ℕ} (S : Matrix (Fin d) (Fin d) ℝ) :
    (whitening_transform S).transpose = whitening_transform S := by
  rw [whitening_transform]
  split
  · rename_i h
    rw [← Matrix.conjTranspose_eq_transpose_of_trivial]
    exact (h.inv.posSemidef).posSemidef_sqrt.isHermitian
  · exact Matrix.transpose_one

lemma whitening_whitens {d : ℕ} (S : Matrix (Fin d) (Fin d) ℝ) (hS : S.PosDef) :
    whitening_transform S * S * whitening_transform S = 1 := by
  rw [whitening_transform, dif_pos hS]
  have hWW : (hS.inv.posSemidef).sqrt * (hS.inv.posSemidef).sqrt = S⁻¹ :=
    (hS.inv.posSemidef).sqrt_mul_self
  have hdetS : IsUnit S.det := isUnit_iff_ne_zero.mpr (ne_of_gt hS.det_pos)
  have hdetW : IsUnit ((hS.inv.posSemidef).sqrt).det := by
    have h1 : ((hS.inv.posSemidef).sqrt).det * ((hS.inv.posSemidef).sqrt).det =
        S⁻¹.det := by rw [← Matrix.det_mul, hWW]
    have h2 : S⁻¹.det ≠ 0 := ne_of_gt hS.inv.det_pos
    exact isUnit_iff_ne_zero.mpr (fun h0 => h2 (by rw [← h1, h0, mul_zero]))
  calc (hS.inv.posSemidef).sqrt * S * (hS.inv.posSemidef).sqrt
      = (hS.inv.posSemidef).sqrt * (S⁻¹)⁻¹ * (hS.inv.posSemidef).sqrt := by
        rw [Matrix.nonsing_inv_nonsing_inv S hdetS]
    _ = (hS.inv.posSemidef).sqrt *
          (((hS.inv.posSemidef).sqrt * (hS.inv.posSemidef).sqrt)⁻¹) *
          (hS.inv.posSemidef).sqrt := by rw [hWW]
    _ = (hS.inv.posSemidef).sqrt *
          (((hS.inv.posSemidef).sqrt)⁻¹ * ((hS.inv.posSemidef).sqrt)⁻¹) *
          (hS.inv.posSemidef).sqrt := by rw [Matrix.mul_inv_rev]
    _ = ((hS.inv.posSemidef).sqrt * ((hS.inv.posSemidef).sqrt)⁻¹) *
          (((hS.inv.posSemidef).sqrt)⁻¹ * (hS.inv.posSemidef).sqrt) := by
        noncomm_ring
    _ = 1 := by
        rw [Matrix.mul_nonsing_inv _ hdetW, Matrix.nonsing_inv_mul _ hdetW, one_mul]

/-- C1: after `tvn_on_controls`, the batch's control rows have mean exactly
zero and covariance exactly the identity (the exact statement implies the
spec's `approximately, within numerical tolerance`), provided the batch is
nonempty and its control covariance is nonsingular (the spec's stated
precondition). -/

theorem C1_tvn_normalizes_controls {n d : ℕ} (controls : Fin n → Fin d → ℝ)
    (hn : 0 < n) (hS : (sampleCov controls).PosDef) :
    sampleMean (fun i => tvn_on_controls controls (controls i)) = 0 ∧
    sampleCov (fun i => tvn_on_controls controls (controls i)) = 1 := by
  have hmean := tvn_mean_zero controls hn
  refine ⟨hmean, ?_⟩
  have hT : centeredMatrix (fun i => tvn_on_controls controls (controls i)) =
      centeredMatrix controls * whitening_transform (sampleCov controls) := by
    ext i j
    simp only [centeredMatrix, Matrix.of_apply]
    rw [congrFun hmean j, Pi.zero_apply, sub_zero, tvn_row_eq]
    simp [Matrix.mul_apply, centeredMatrix]
  show ((n : ℝ))⁻¹ •
      ((centeredMatrix (fun i => tvn_on_controls controls (controls i))).transpose *
        centeredMatrix (fun i => tvn_on_controls controls (controls i))) = 1
  rw [hT]
  calc ((n : ℝ))⁻¹ •
      ((centeredMatrix controls * whitening_transform (sampleCov controls)).transpose *
        (centeredMatrix controls * whitening_transform (sampleCov controls)))
      = ((n : ℝ))⁻¹ •
        ((whitening_transform (sampleCov controls)).transpose *
          ((centeredMatrix controls).transpose * centeredMatrix controls) *
          whitening_transform (sampleCov controls)) := by
        rw [Matrix.transpose_mul]
        congr 1
        simp only [Matrix.mul_assoc]
    _ = (whitening_transform (sampleCov controls)).transpose *
          (((n : ℝ))⁻¹ • ((centeredMatrix controls).transpose * centeredMatrix controls)) *
          whitening_transform (sampleCov controls) := by
        rw [Matrix.mul_smul, Matrix.smul_mul]
    _ = (whitening_transform (sampleCov controls)).transpose * sampleCov controls *
          whitening_transform (sampleCov controls) := rfl
    _ = whitening_transform (sampleCov controls) * sampleCov controls *
          whitening_transform (sampleCov controls) := by rw [whitening_transpose]
    _ = 1 := whitening_whitens (sampleCov controls) hS

lemma c1Controls_cov_eq_one : sampleCov c1Controls = 1 := by
  ext i j
  fin_cases i
  fin_cases j
  simp [sampleCov, centeredMatrix, sampleMean, Matrix.mul_apply, Matrix.transpose_apply,
    Fin.sum_univ_two, c1Controls, Matrix.one_apply]
  norm_num

/-- Witness for C1 at the concrete control batch `c1Controls`. -/

theorem C1_tvn_normalizes_controls_witness :
    sampleMean (fun i => tvn_on_controls c1Controls (c1Controls i)) = 0 ∧
    sampleCov (fun i => tvn_on_controls c1Controls (c1Controls i)) = 1 :=
  C1_tvn_normalizes_controls c1Controls (by norm_num)
    (by rw [c1Controls_cov_eq_one]; exact Matrix.PosDef.one)

end Brieflow
